import Mathlib

/-!
Verification development for the VIM_RUNNER arcade game core.

The definitions below are a shallow embedding of the game's source:
the tile grid and range-action application (`js/core/stateManager.js`,
`PlayingState.handleRangeAction`), the enemy model (`js/game_objects/enemy.js`),
the game-mode state machine (`js/core/stateManager.js`, `StateManager.switchTo`),
the keystroke parser (`js/input/inputHandler.js`, `InputHandler._handleNormalMode`)
and the operator-motion resolver (`js/game_objects/player.js`,
`Player._handleDeleteOrChangeMotion`).

JavaScript numbers are embedded as `Int` (all quantities involved are integral),
strings as `String`, and the mutable tile matrix as a function
`Int → Int → Tile` updated pointwise (row index first, matching `tiles[y][x]`).
-/

/-! ## Tiles and the grid -/

/-- Tile kinds, from the level data and `handleRangeAction`'s checks. -/
inductive TileType where
  | pathway
  | dataNode
  | corrupted
  | barrier
  | exitNode
  | decoration
deriving DecidableEq, Repr

/-- A grid tile: its display character and its kind
(`{ char, type }` in the level data). -/
structure Tile where
  char : Char
  type : TileType
deriving DecidableEq, Repr

/-- The current level: dimensions plus the tile matrix, indexed `tiles y x`
like the source's `tiles[y][x]`. -/
structure Level where
  width : Nat
  height : Nat
  tiles : Int → Int → Tile

/-! ## Enemies (`js/game_objects/enemy.js`) -/

/-- Enemy lifecycle states used by the source (strings there). -/
inductive EnemyState where
  | idle
  | chasing
  | attacking
  | defeated
deriving DecidableEq, Repr

/-- An enemy: position, health and lifecycle state. -/
structure Enemy where
  x : Int
  y : Int
  health : Int
  state : EnemyState
deriving DecidableEq, Repr

/-- `Enemy.takeDamage(amount)`: subtract, floor at 0, mark defeated when
health hits exactly 0. -/
def takeDamage (e : Enemy) (amount : Int) : Enemy :=
  let h := max 0 (e.health - amount)
  { e with health := h, state := if h = 0 then .defeated else e.state }

/-- `Enemy.isDefeated()`: `health <= 0`. -/
def isDefeated (e : Enemy) : Bool :=
  e.health ≤ 0

/-- Does the enemy stand on cell `(x, y)`? (The position test of the
enemy-search loop in `handleRangeAction`.) -/
def enemyAt (e : Enemy) (x y : Int) : Bool :=
  decide (e.x = x ∧ e.y = y)

/-! ## The Playing-mode state and range actions
(`js/core/stateManager.js`, `PlayingState`) -/

/-- The pieces of Playing-mode state that range actions touch:
the level grid, the enemy roster, and the player's score. -/
structure PlayState where
  level : Level
  enemies : List Enemy
  score : Int

/-- The enemy-search loop of `handleRangeAction`: iterate the roster from the
highest index down, damage the first enemy found at `(x, y)` by 5 and stop.
Returns the updated roster and whether an enemy was hit. -/
def damageEnemiesAt (es : List Enemy) (x y : Int) : List Enemy × Bool :=
  match es with
  | [] => ([], false)
  | e :: rest =>
      let r := damageEnemiesAt rest x y
      if r.2 then (e :: r.1, true)
      else if enemyAt e x y then (takeDamage e 5 :: rest, true)
      else (e :: rest, false)

/-- Is some enemy of the roster at `(x, y)`? -/
def occupied (es : List Enemy) (x y : Int) : Bool :=
  es.any (fun e => enemyAt e x y)

/-- One iteration of `handleRangeAction`'s double loop, at cell
`p = (y, x)` (row first, matching the row-major iteration order).
Accumulates `scoreGained` in the second component:
out-of-bounds cells are skipped; an enemy on the cell takes 5 damage and
shadows the tile; otherwise a `corrupted` tile becomes `'.'`/`pathway`
and earns 5 score; every other tile kind is left alone. -/
def rangeStep (acc : PlayState × Int) (p : Int × Int) : PlayState × Int :=
  let st := acc.1
  let y := p.1
  let x := p.2
  if y < 0 ∨ (st.level.height : Int) ≤ y ∨ x < 0 ∨ (st.level.width : Int) ≤ x then
    acc
  else
    let dr := damageEnemiesAt st.enemies x y
    if dr.2 then ({ st with enemies := dr.1 }, acc.2)
    else if (st.level.tiles y x).type = .corrupted then
      ({ st with
          level := { st.level with
            tiles := fun b a =>
              if b = y ∧ a = x then ⟨'.', .pathway⟩ else st.level.tiles b a } },
        acc.2 + 5)
    else acc

/-- The integer interval `[a, b]` as a list (empty when `b < a`). -/
def intRange (a b : Int) : List Int :=
  (List.range (b - a + 1).toNat).map (fun i : Nat => a + (i : Int))

/-- Row-major list of `(y, x)` cells with `y ∈ ys`, `x ∈ xs`. -/
def gridPositions (ys xs : List Int) : List (Int × Int) :=
  ys.flatMap (fun y => xs.map (fun x => (y, x)))

/-- A raw target range as produced by the resolver:
`{ startX, startY, endX, endY }`, possibly reversed. -/
structure RangeSpec where
  startX : Int
  startY : Int
  endX : Int
  endY : Int
deriving DecidableEq, Repr

/-- The row-major cell list that `handleRangeAction` iterates over:
the range normalized by `min`/`max` on each axis. -/
def rangeCells (r : RangeSpec) : List (Int × Int) :=
  gridPositions (intRange (min r.startY r.endY) (max r.startY r.endY))
    (intRange (min r.startX r.endX) (max r.startX r.endX))

/-- `PlayingState.handleRangeAction(targetRange, ...)`: normalize the range,
sweep it row-major applying `rangeStep`, then credit the accumulated
`scoreGained` to the player's score (`player.addScore`; adding 0 when no
tile was cleared coincides with the source's guarded call). -/
def handleRangeAction (st : PlayState) (r : RangeSpec) : PlayState :=
  let res := (rangeCells r).foldl rangeStep (st, 0)
  { res.1 with score := res.1.score + res.2 }

/-- A cell of the sweep that gets cleared for score: in bounds, not shadowed
by an enemy, and holding a `corrupted` tile (all judged in state `st`). -/
def clearedCell (st : PlayState) (p : Int × Int) : Bool :=
  decide (0 ≤ p.1 ∧ p.1 < (st.level.height : Int) ∧ 0 ≤ p.2 ∧
      p.2 < (st.level.width : Int)) &&
    !occupied st.enemies p.2 p.1 &&
    decide ((st.level.tiles p.1 p.2).type = .corrupted)

/-! ## The game-mode state machine (`StateManager`) -/

/-- The six registered mode names (the keys of `this.states`). -/
def knownStates : List String :=
  ["MENU", "LOADING", "PLAYING", "PAUSED", "GAME_OVER", "LEVEL_COMPLETE"]

/-- The mode-tracking fields of `StateManager`. -/
structure SMState where
  currentStateName : Option String
  previousStateName : Option String
deriving DecidableEq, Repr

/-- `StateManager.switchTo(stateName)`: an unknown name logs an error and is
replaced by `MENU`; then the previous name is recorded (when a different
state was active), the old state exits and the new one is entered.
The returned flag records whether the unknown-state fallback fired. -/
def switchTo (sm : SMState) (stateName : String) : SMState × Bool :=
  let fell := stateName ∉ knownStates
  let name := if stateName ∈ knownStates then stateName else "MENU"
  let prev :=
    match sm.currentStateName with
    | some cur => if cur ≠ name then some cur else sm.previousStateName
    | none => sm.previousStateName
  (⟨some name, prev⟩, fell)

/-! ## Playing-mode exit (pause transition side-effects) -/

/-- The in-progress Playing-mode data named by the pause contract. -/
structure PlayingData where
  elapsedTime : Int
  enemies : List Enemy
deriving DecidableEq, Repr

/-- `PlayingState.exit()`: runs when the machine leaves `PLAYING`
(in particular on `switchTo('PAUSED')`); it deactivates input and sets
`this.enemies = []`, discarding the live roster. -/
def exitPlaying (d : PlayingData) : PlayingData :=
  { d with enemies := [] }

/-! ## The keystroke parser (`js/input/inputHandler.js`), NORMAL mode -/

/-- Motion symbols of the parser's motion map and the player's resolver. -/
inductive MotionSym where
  | LEFT
  | DOWN
  | UP
  | RIGHT
  | WORD_FORWARD
  | WORD_BACKWARD
  | WORD_END
  | LINE_END
  | LINE_START
  | LINE_FIRST_CHAR
  | LINE
deriving DecidableEq, Repr

/-- Commands the NORMAL-mode handler can queue. -/
inductive Cmd where
  | moveTo (target : String) (count : Nat)
  | move (direction : MotionSym) (count : Nat)
  | deleteOp (motion : MotionSym) (count : Nat)
  | changeOp (motion : MotionSym) (count : Nat)
  | yankOp (motion : MotionSym) (count : Nat)
  | deleteChar (count : Nat)
  | pasteAfter (count : Nat)
  | pasteBefore (count : Nat)
  | undo (count : Nat)
  | replaceCharExecute (char : String)
  | clearBuffer
deriving DecidableEq, Repr

/-- Numeric value of a digit character. -/
def digitVal (c : Char) : Nat :=
  c.toNat - '0'.toNat

/-- Decimal value of a digit-character list. -/
def digitsToNat (l : List Char) : Nat :=
  l.foldl (fun n c => 10 * n + digitVal c) 0

/-- `parseInt(s, 10)` on the strings this parser builds: the value of the
leading digit run, none when there is no leading digit (NaN). -/
def jsParseInt (s : String) : Option Nat :=
  match s.data.takeWhile Char.isDigit with
  | [] => none
  | ds => some (digitsToNat ds)

/-- `parseInt(this.numericPrefix || '1', 10)`; the NaN case (a malformed
stored string, which the handler itself never produces) is encoded as 0. -/
def parsedCount (pfx : String) : Nat :=
  (jsParseInt (if pfx = "" then "1" else pfx)).getD 0

/-- The NORMAL-mode buffer state of `InputHandler` (field `numericPfx`
embeds the source's numeric-prefix string), plus whether a `pause` action
listener is registered. -/
structure IHState where
  commandBuffer : String
  numericPfx : String
  hasPauseListener : Bool
deriving DecidableEq, Repr

/-- Result of one NORMAL-mode keypress: the new buffer state, the queued
commands, and whether the `pause` action listener fired. -/
structure HNResult where
  state : IHState
  emitted : List Cmd
  pauseFired : Bool
deriving DecidableEq, Repr

/-- Digit keys 1-9 (the leading digits of a numeric count). -/
def digitKeys19 : List String :=
  ["1", "2", "3", "4", "5", "6", "7", "8", "9"]

/-- Digit keys 0-9 (the regex of the final buffer-reset guard). -/
def digitKeys09 : List String :=
  ["0", "1", "2", "3", "4", "5", "6", "7", "8", "9"]

/-- The three operator keys. -/
def operatorKeys : List String :=
  ["d", "c", "y"]

/-- The parser's `motionMap`. -/
def motionOf (k : String) : Option MotionSym :=
  if k = "h" then some .LEFT
  else if k = "j" then some .DOWN
  else if k = "k" then some .UP
  else if k = "l" then some .RIGHT
  else if k = "w" then some .WORD_FORWARD
  else if k = "b" then some .WORD_BACKWARD
  else if k = "e" then some .WORD_END
  else if k = "$" then some .LINE_END
  else if k = "^" then some .LINE_FIRST_CHAR
  else none

/-- The non-`r` entries of `simpleCommandMap` as commands. -/
def simpleCmdOf (k : String) (count : Nat) : Option Cmd :=
  if k = "x" then some (.deleteChar count)
  else if k = "p" then some (.pasteAfter count)
  else if k = "P" then some (.pasteBefore count)
  else if k = "u" then some (.undo count)
  else none

/-- The doubled-operator command: `dd`/`cc`/`yy` as a LINE operator motion. -/
def opLineCmd (k : String) (count : Nat) : Cmd :=
  if k = "d" then .deleteOp .LINE count
  else if k = "c" then .changeOp .LINE count
  else .yankOp .LINE count

/-- Operator-plus-motion dispatch: a pending `d`/`c`/`y` buffer turns the
motion into the matching operator command, anything else into a move. -/
def opMotionCmd (buf : String) (m : MotionSym) (count : Nat) : Cmd :=
  if buf = "d" then .deleteOp m count
  else if buf = "c" then .changeOp m count
  else if buf = "y" then .yankOp m count
  else .move m count

/-- `InputHandler._handleNormalMode(key)`, translated branch for branch:
Escape dispatches to the pause listener or clears the buffer emitting
CLEAR_BUFFER; digits extend the numeric run; a lone `0` is line start;
an operator key opens or (doubled) completes a LINE command; a motion key
completes the pending operator or moves; `x r p P u` are simple commands
with `r` arming the replace buffer; a single character after `r` executes
the replacement; emitting any command resets buffer and numeric run, and
otherwise the buffer resets only when nothing (`d c y r`) is pending and
the key is not a digit. -/
def handleNormal (st : IHState) (key : String) : HNResult :=
  let count := parsedCount st.numericPfx
  if key = "Escape" then
    if st.hasPauseListener then
      ⟨{ st with commandBuffer := "", numericPfx := "" }, [], true⟩
    else
      ⟨{ st with commandBuffer := "", numericPfx := "" }, [.clearBuffer], false⟩
  else if key ∈ digitKeys19 ∧ st.commandBuffer = "" then
    ⟨{ st with numericPfx := st.numericPfx ++ key }, [], false⟩
  else if key = "0" ∧ st.commandBuffer = "" ∧ st.numericPfx ≠ "" then
    ⟨{ st with numericPfx := st.numericPfx ++ key }, [], false⟩
  else if key ∈ operatorKeys ∧ st.commandBuffer = "" then
    ⟨{ st with commandBuffer := key }, [], false⟩
  else
    let command0 : Option Cmd :=
      if key = "0" ∧ st.commandBuffer = "" ∧ st.numericPfx = "" then
        some (.moveTo "LINE_START" 1)
      else none
    let cmdBuf : Option Cmd × String :=
      if key ∈ operatorKeys ∧ st.commandBuffer = key then
        (some (opLineCmd key count), "")
      else
        match command0 with
        | some c => (some c, st.commandBuffer)
        | none =>
          match motionOf key with
          | some m => (some (opMotionCmd st.commandBuffer m count), "")
          | none =>
            if (key = "x" ∨ key = "r" ∨ key = "p" ∨ key = "P" ∨ key = "u") ∧
                st.commandBuffer = "" then
              if key = "r" then (none, "r")
              else (simpleCmdOf key count, st.commandBuffer)
            else if st.commandBuffer = "r" ∧ key.length = 1 then
              (some (.replaceCharExecute key), "")
            else (none, st.commandBuffer)
    match cmdBuf.1 with
    | some c => ⟨⟨"", "", st.hasPauseListener⟩, [c], false⟩
    | none =>
      if cmdBuf.2 ∉ ["d", "c", "y", "r"] ∧ key ∉ digitKeys09 then
        ⟨⟨"", "", st.hasPauseListener⟩, [], false⟩
      else
        ⟨⟨cmdBuf.2, st.numericPfx, st.hasPauseListener⟩, [], false⟩

/-! ## The operator-motion resolver (`js/game_objects/player.js`) -/

/-- Modelled from the spec: `Player._isWhitespace` has its body elided in
src ("remains the same"); the spec classifies word boundaries by whitespace
tiles, modelled here as the space character. -/
def isWhitespaceChar (c : Char) : Bool :=
  c = ' '

/-- Whitespace classification of the tile at column `x` of row `y`. -/
def tileWs (g : Level) (x y : Int) : Bool :=
  isWhitespaceChar (g.tiles y x).char

/-- Walk left while the tile to the left is non-whitespace (fuel-bounded by
the starting column), stopping at the start of the current maximal
non-whitespace run. -/
def wordStartLeft (g : Level) (y : Int) : Nat → Int → Int
  | 0, x => x
  | fuel + 1, x =>
    if !tileWs g (x - 1) y then wordStartLeft g y fuel (x - 1) else x

/-- Modelled from the spec: `Player._findPreviousWordStart` has its body
elided in src. The spec derives word boundaries from adjacent-tile
whitespace classification, and its word-backward property (an empty span
when the cursor already sits on a word's first character) pins the reading
that the scan stops at the start of the word containing the cursor. -/
def findPreviousWordStart (g : Level) (x y : Int) : Option (Int × Int) :=
  some (wordStartLeft g y x.toNat x, y)

/-- Modelled from the spec: `Player._findLineStart` has its body elided in
src; line start is column 0. -/
def findLineStart (y : Int) : Int × Int :=
  (0, y)

/-- Modelled from the spec: `Player._findLineEnd` has its body elided in
src; line end is the last column. -/
def findLineEnd (g : Level) (y : Int) : Int × Int :=
  ((g.width : Int) - 1, y)

/-- Modelled from the spec: `Player._findLineFirstChar` has its body elided
in src; the first non-whitespace column of the row, defaulting to 0. -/
def findLineFirstChar (g : Level) (y : Int) : Int × Int :=
  match (List.range g.width).find? (fun i => !tileWs g (i : Int) y) with
  | some i => ((i : Int), y)
  | none => (0, y)

/-- Scan right from a column (inclusive), fuel-bounded, for the first column
satisfying `p`; none when the fuel runs out or the row ends. -/
def scanRightCol (g : Level) (p : Int → Bool) : Nat → Int → Option Int
  | 0, _ => none
  | fuel + 1, x =>
    if (g.width : Int) ≤ x then none
    else if p x then some x
    else scanRightCol g p fuel (x + 1)

/-- Modelled from the spec: `Player._findNextWordStart` has its body elided
in src. Skip the remainder of the current non-whitespace run (when the
cursor is on one), then skip whitespace; none when the row runs out. -/
def findNextWordStart (g : Level) (x y : Int) : Option (Int × Int) :=
  if !tileWs g x y then
    match scanRightCol g (fun a => tileWs g a y) g.width (x + 1) with
    | none => none
    | some x1 =>
      match scanRightCol g (fun a => !tileWs g a y) g.width x1 with
      | none => none
      | some x2 => some (x2, y)
  else
    match scanRightCol g (fun a => !tileWs g a y) g.width (x + 1) with
    | none => none
    | some x2 => some (x2, y)

/-- Modelled from the spec: `Player._findWordEnd` has its body elided in
src. Reach the nearest non-whitespace column at or right of the cursor,
then the end of that word is the last column of its run. -/
def findWordEnd (g : Level) (x y : Int) : Option (Int × Int) :=
  match scanRightCol g (fun a => !tileWs g a y) g.width x with
  | none => none
  | some x1 =>
    match scanRightCol g
        (fun a => decide ((g.width : Int) - 1 ≤ a) || tileWs g (a + 1) y)
        g.width x1 with
    | none => none
    | some x2 => some (x2, y)

/-- The WORD_FORWARD loop of `_handleDeleteOrChangeMotion`: iterate
`_findNextWordStart` `count` times; a null result breaks out replacing the
target with the line end of the cursor row. -/
def iterNextWordStart (g : Level) (oy : Int) : Nat → Int × Int → Int × Int
  | 0, tp => tp
  | n + 1, tp =>
    match findNextWordStart g tp.1 tp.2 with
    | some tp2 => iterNextWordStart g oy n tp2
    | none => findLineEnd g oy

/-- The WORD_END loop: iterate `_findWordEnd`, nudging one column right
between iterations (when not at the last column); a null result breaks out
with null. -/
def iterWordEnd (g : Level) : Nat → Int × Int → Option (Int × Int)
  | 0, tp => some tp
  | n + 1, tp =>
    match findWordEnd g tp.1 tp.2 with
    | none => none
    | some tp2 =>
      if 0 < n ∧ tp2.1 < (g.width : Int) - 1 then iterWordEnd g n (tp2.1 + 1, tp2.2)
      else iterWordEnd g n tp2

/-- The WORD_BACKWARD loop: iterate `_findPreviousWordStart` `count` times;
a null result breaks out replacing the target with the line start. -/
def iterPrevWordStart (g : Level) (oy : Int) : Nat → Int × Int → Int × Int
  | 0, tp => tp
  | n + 1, tp =>
    match findPreviousWordStart g tp.1 tp.2 with
    | some tp2 => iterPrevWordStart g oy n tp2
    | none => findLineStart oy

/-- `Player._handleDeleteOrChangeMotion(motion, count, ...)`: compute the
raw target span and its cost for each motion, returning null (none) for the
empty spans; the cursor is at `(px, py)`. The span and cost do not depend
on whether the operator was DELETE or CHANGE. -/
def handleDeleteOrChangeMotion (g : Level) (px py : Int) (motion : MotionSym)
    (count : Nat) : Option (RangeSpec × Int) :=
  let n : Int := (count : Int)
  match motion with
  | .LINE =>
    let startX : Int := 0
    let endX : Int := (g.width : Int) - 1
    let endY := min (py + n - 1) ((g.height : Int) - 1)
    some (⟨startX, py, endX, endY⟩, 10 * n * (endX - startX + 1))
  | .LEFT =>
    let startX := if 0 < n then max 0 (px - n) else px
    let endX := px - 1
    if startX > endX then none
    else some (⟨startX, py, endX, py⟩, endX - startX + 1)
  | .RIGHT =>
    let startX := px
    let endX := min ((g.width : Int) - 1) (px + n - 1)
    some (⟨startX, py, endX, py⟩, endX - startX + 1)
  | .UP =>
    let targetLineY := max 0 (py - n)
    some (⟨0, targetLineY, (g.width : Int) - 1, py⟩,
      10 * (((targetLineY - py).natAbs : Int) + 1))
  | .DOWN =>
    let targetLineY := min ((g.height : Int) - 1) (py + n)
    some (⟨0, py, (g.width : Int) - 1, targetLineY⟩,
      10 * (((targetLineY - py).natAbs : Int) + 1))
  | .WORD_FORWARD =>
    let tp := iterNextWordStart g py count (px, py)
    let endX := tp.1 - 1
    some (⟨px, py, endX, py⟩, 3 * n + ((endX - px).natAbs : Int))
  | .WORD_END =>
    let endX :=
      match iterWordEnd g count (px, py) with
      | some tp => tp.1
      | none => px
    some (⟨px, py, endX, py⟩, 3 * n + ((endX - px).natAbs : Int))
  | .WORD_BACKWARD =>
    let tp := iterPrevWordStart g py count (px, py)
    let startX := tp.1
    let endX := px - 1
    if startX > endX then none
    else some (⟨startX, py, endX, py⟩, 3 * n + ((endX - startX).natAbs : Int))
  | .LINE_END =>
    let tp := findLineEnd g py
    some (⟨px, py, tp.1, py⟩, 5 + ((tp.1 - px).natAbs : Int))
  | .LINE_START =>
    let tp := findLineStart py
    let endX := px - 1
    if tp.1 > endX then none
    else some (⟨tp.1, py, endX, py⟩, 5 + ((endX - tp.1).natAbs : Int))
  | .LINE_FIRST_CHAR =>
    let tp := findLineFirstChar g py
    let endX := px - 1
    if tp.1 > endX then none
    else some (⟨tp.1, py, endX, py⟩, 5 + ((endX - tp.1).natAbs : Int))

/-- Feeding a resolver result through the Playing state: a null result
produces no Action and leaves the state alone; a span is applied by
`handleRangeAction` (as `processPlayerActions` does for DELETE_RANGE
and CHANGE_RANGE requests). -/
def applyResolved (st : PlayState) (res : Option (RangeSpec × Int)) : PlayState :=
  match res with
  | none => st
  | some (r, _) => handleRangeAction st r

/-! ## Supporting lemmas: the enemy-search loop -/

theorem enemyAt_takeDamage (e : Enemy) (d a b : Int) :
    enemyAt (takeDamage e d) a b = enemyAt e a b := rfl

theorem damageEnemiesAt_hit (es : List Enemy) (x y : Int) :
    (damageEnemiesAt es x y).2 = occupied es x y := by
  unfold occupied
  induction es with
  | nil => rfl
  | cons e rest ih =>
    unfold damageEnemiesAt
    rw [List.any_cons, ← ih]
    cases h2 : (damageEnemiesAt rest x y).2 <;> cases he : enemyAt e x y <;> simp [h2, he]

theorem occupied_damageEnemiesAt (es : List Enemy) (x y a b : Int) :
    occupied (damageEnemiesAt es x y).1 a b = occupied es a b := by
  unfold occupied
  induction es with
  | nil => rfl
  | cons e rest ih =>
    unfold damageEnemiesAt
    cases h2 : (damageEnemiesAt rest x y).2 <;> cases he : enemyAt e x y <;>
      simp [h2, he, List.any_cons, enemyAt_takeDamage, ih]

theorem countP_damageEnemiesAt (es : List Enemy) (x y a b : Int) :
    (damageEnemiesAt es x y).1.countP (fun e2 => enemyAt e2 a b) =
      es.countP (fun e2 => enemyAt e2 a b) := by
  induction es with
  | nil => rfl
  | cons e rest ih =>
    unfold damageEnemiesAt
    cases h2 : (damageEnemiesAt rest x y).2 <;> cases he : enemyAt e x y <;>
      simp [h2, he, List.countP_cons, enemyAt_takeDamage, ih]

theorem damageEnemiesAt_entry_notAt (es : List Enemy) (x y : Int) (i : Nat) (e2 : Enemy)
    (hi : es[i]? = some e2) (hne : enemyAt e2 x y = false) :
    (damageEnemiesAt es x y).1[i]? = some e2 := by
  induction es generalizing i with
  | nil => simp at hi
  | cons hd rest ih =>
    unfold damageEnemiesAt
    cases h2 : (damageEnemiesAt rest x y).2
    · cases he : enemyAt hd x y
      · simpa [h2, he] using hi
      · cases i with
        | zero =>
          simp only [List.getElem?_cons_zero, Option.some.injEq] at hi
          subst hi
          rw [he] at hne
          simp at hne
        | succ j =>
          simp only [List.getElem?_cons_succ] at hi
          simp [h2, he, hi]
    · cases i with
      | zero => simpa [h2] using hi
      | succ j =>
        simp only [List.getElem?_cons_succ] at hi
        simp [h2, ih j hi]

theorem damageEnemiesAt_of_countP_zero (es : List Enemy) (x y : Int)
    (h : es.countP (fun e2 => enemyAt e2 x y) = 0) :
    damageEnemiesAt es x y = (es, false) := by
  induction es with
  | nil => rfl
  | cons e rest ih =>
    rw [List.countP_cons] at h
    have he : enemyAt e x y = false := by
      by_contra hc
      simp only [Bool.not_eq_false] at hc
      simp [hc] at h
    have hr : rest.countP (fun e2 => enemyAt e2 x y) = 0 := by omega
    unfold damageEnemiesAt
    rw [ih hr]
    simp [he]

theorem map_id_of_countP_zero (es : List Enemy) (x y : Int)
    (h : es.countP (fun e2 => enemyAt e2 x y) = 0) :
    es.map (fun e2 => if enemyAt e2 x y then takeDamage e2 5 else e2) = es := by
  induction es with
  | nil => rfl
  | cons e rest ih =>
    rw [List.countP_cons] at h
    have he : enemyAt e x y = false := by
      by_contra hc
      simp only [Bool.not_eq_false] at hc
      simp [hc] at h
    have hr : rest.countP (fun e2 => enemyAt e2 x y) = 0 := by omega
    simp [he, ih hr]

theorem damageEnemiesAt_of_countP_one (es : List Enemy) (x y : Int)
    (h : es.countP (fun e2 => enemyAt e2 x y) = 1) :
    damageEnemiesAt es x y =
      (es.map (fun e2 => if enemyAt e2 x y then takeDamage e2 5 else e2), true) := by
  induction es with
  | nil => simp at h
  | cons e rest ih =>
    rw [List.countP_cons] at h
    by_cases he : enemyAt e x y
    · have hr : rest.countP (fun e2 => enemyAt e2 x y) = 0 := by
        simp only [he, if_true] at h
        omega
      unfold damageEnemiesAt
      rw [damageEnemiesAt_of_countP_zero rest x y hr]
      simp [he, map_id_of_countP_zero rest x y hr]
    · have hr : rest.countP (fun e2 => enemyAt e2 x y) = 1 := by
        simp only [he, Bool.false_eq_true, if_false] at h
        omega
      unfold damageEnemiesAt
      rw [ih hr]
      simp [he]

theorem occupied_of_countP_one (es : List Enemy) (x y : Int)
    (h : es.countP (fun e2 => enemyAt e2 x y) = 1) :
    occupied es x y = true := by
  unfold occupied
  rw [List.any_eq_true]
  exact List.countP_pos_iff.mp (by omega)

/-! ## Supporting lemmas: one sweep step -/

theorem rangeStep_width (acc : PlayState × Int) (p : Int × Int) :
    (rangeStep acc p).1.level.width = acc.1.level.width := by
  unfold rangeStep
  dsimp only
  split
  · rfl
  · split
    · rfl
    · split <;> rfl

theorem rangeStep_height (acc : PlayState × Int) (p : Int × Int) :
    (rangeStep acc p).1.level.height = acc.1.level.height := by
  unfold rangeStep
  dsimp only
  split
  · rfl
  · split
    · rfl
    · split <;> rfl

theorem rangeStep_score_inv (acc : PlayState × Int) (p : Int × Int) :
    (rangeStep acc p).1.score = acc.1.score := by
  unfold rangeStep
  dsimp only
  split
  · rfl
  · split
    · rfl
    · split <;> rfl

theorem rangeStep_tiles_ne (acc : PlayState × Int) (p : Int × Int) (a b : Int)
    (h : (a, b) ≠ p) :
    (rangeStep acc p).1.level.tiles a b = acc.1.level.tiles a b := by
  have h2 : ¬(a = p.1 ∧ b = p.2) := by
    intro hc
    exact h (Prod.ext hc.1 hc.2)
  unfold rangeStep
  dsimp only
  split
  · rfl
  · split
    · rfl
    · split
      · dsimp only
        rw [if_neg h2]
      · rfl

theorem rangeStep_occupied (acc : PlayState × Int) (p : Int × Int) (a b : Int) :
    occupied (rangeStep acc p).1.enemies a b = occupied acc.1.enemies a b := by
  unfold rangeStep
  dsimp only
  split
  · rfl
  · split
    · exact occupied_damageEnemiesAt _ _ _ _ _
    · split <;> rfl

theorem rangeStep_countP (acc : PlayState × Int) (p : Int × Int) (a b : Int) :
    (rangeStep acc p).1.enemies.countP (fun e2 => enemyAt e2 a b) =
      acc.1.enemies.countP (fun e2 => enemyAt e2 a b) := by
  unfold rangeStep
  dsimp only
  split
  · rfl
  · split
    · exact countP_damageEnemiesAt _ _ _ _ _
    · split <;> rfl

theorem rangeStep_entry_notAt (acc : PlayState × Int) (p : Int × Int) (i : Nat) (e2 : Enemy)
    (hne : enemyAt e2 p.2 p.1 = false) (hi : acc.1.enemies[i]? = some e2) :
    (rangeStep acc p).1.enemies[i]? = some e2 := by
  unfold rangeStep
  dsimp only
  split
  · exact hi
  · split
    · exact damageEnemiesAt_entry_notAt _ _ _ _ _ hi hne
    · split <;> exact hi

/-! ## Supporting lemmas: the row-major sweep -/

theorem fold_width (ps : List (Int × Int)) (acc : PlayState × Int) :
    ((ps.foldl rangeStep acc).1).level.width = acc.1.level.width := by
  induction ps generalizing acc with
  | nil => rfl
  | cons p rest ih =>
    rw [List.foldl_cons]
    exact (ih (rangeStep acc p)).trans (rangeStep_width acc p)

theorem fold_height (ps : List (Int × Int)) (acc : PlayState × Int) :
    ((ps.foldl rangeStep acc).1).level.height = acc.1.level.height := by
  induction ps generalizing acc with
  | nil => rfl
  | cons p rest ih =>
    rw [List.foldl_cons]
    exact (ih (rangeStep acc p)).trans (rangeStep_height acc p)

theorem fold_score_field (ps : List (Int × Int)) (acc : PlayState × Int) :
    ((ps.foldl rangeStep acc).1).score = acc.1.score := by
  induction ps generalizing acc with
  | nil => rfl
  | cons p rest ih =>
    rw [List.foldl_cons]
    exact (ih (rangeStep acc p)).trans (rangeStep_score_inv acc p)

theorem fold_tiles_not_mem (ps : List (Int × Int)) (acc : PlayState × Int) (a b : Int)
    (h : (a, b) ∉ ps) :
    ((ps.foldl rangeStep acc).1).level.tiles a b = acc.1.level.tiles a b := by
  induction ps generalizing acc with
  | nil => rfl
  | cons p rest ih =>
    rw [List.foldl_cons]
    have h1 : (a, b) ≠ p := fun hh => h (hh ▸ List.mem_cons_self p rest)
    have h2 : (a, b) ∉ rest := fun hh => h (List.mem_cons_of_mem p hh)
    exact (ih (rangeStep acc p) h2).trans (rangeStep_tiles_ne acc p a b h1)

theorem rangeStep_at_free (acc : PlayState × Int) (a b : Int)
    (hb : 0 ≤ a ∧ a < (acc.1.level.height : Int) ∧ 0 ≤ b ∧ b < (acc.1.level.width : Int))
    (hocc : occupied acc.1.enemies b a = false) :
    (rangeStep acc (a, b)).1.level.tiles a b =
      (if (acc.1.level.tiles a b).type = .corrupted then ⟨'.', .pathway⟩
        else acc.1.level.tiles a b) := by
  unfold rangeStep
  dsimp only
  rw [if_neg (by omega)]
  simp only [damageEnemiesAt_hit, hocc, Bool.false_eq_true, if_false]
  by_cases hc : (acc.1.level.tiles a b).type = .corrupted
  · simp [hc]
  · simp [hc]

theorem rangeStep_tiles_occupied (acc : PlayState × Int) (a b : Int)
    (hocc : occupied acc.1.enemies b a = true) :
    (rangeStep acc (a, b)).1.level.tiles a b = acc.1.level.tiles a b := by
  unfold rangeStep
  dsimp only
  split
  · rfl
  · simp [damageEnemiesAt_hit, hocc]

theorem rangeStep_gained (acc : PlayState × Int) (p : Int × Int) :
    (rangeStep acc p).2 = acc.2 + (if clearedCell acc.1 p then 5 else 0) := by
  unfold rangeStep clearedCell
  dsimp only
  by_cases hg : p.1 < 0 ∨ (acc.1.level.height : Int) ≤ p.1 ∨ p.2 < 0 ∨
      (acc.1.level.width : Int) ≤ p.2
  · rw [if_pos hg]
    have hnb : ¬(0 ≤ p.1 ∧ p.1 < (acc.1.level.height : Int) ∧ 0 ≤ p.2 ∧
        p.2 < (acc.1.level.width : Int)) := by omega
    simp [hnb]
  · rw [if_neg hg]
    have hbp : 0 ≤ p.1 ∧ p.1 < (acc.1.level.height : Int) ∧ 0 ≤ p.2 ∧
        p.2 < (acc.1.level.width : Int) := by omega
    cases ho : occupied acc.1.enemies p.2 p.1
    · simp only [damageEnemiesAt_hit, ho, Bool.false_eq_true, if_false]
      by_cases hc : (acc.1.level.tiles p.1 p.2).type = .corrupted <;> simp [hbp, hc, ho]
    · simp [damageEnemiesAt_hit, ho]

theorem clearedCell_rangeStep (acc : PlayState × Int) (p q : Int × Int) (h : q ≠ p) :
    clearedCell (rangeStep acc p).1 q = clearedCell acc.1 q := by
  unfold clearedCell
  rw [rangeStep_width, rangeStep_height, rangeStep_occupied]
  rw [show (rangeStep acc p).1.level.tiles q.1 q.2 = acc.1.level.tiles q.1 q.2 from
    rangeStep_tiles_ne acc p q.1 q.2 (by rw [Prod.mk.eta]; exact h)]

theorem fold_gained (ps : List (Int × Int)) (acc : PlayState × Int) (hnd : ps.Nodup) :
    (ps.foldl rangeStep acc).2 = acc.2 + 5 * (ps.countP (clearedCell acc.1)) := by
  induction ps generalizing acc with
  | nil => simp
  | cons p rest ih =>
    rw [List.foldl_cons, List.countP_cons]
    have hnd2 := List.nodup_cons.mp hnd
    have hcongr : rest.countP (clearedCell (rangeStep acc p).1) =
        rest.countP (clearedCell acc.1) := by
      apply List.countP_congr
      intro q hq
      rw [clearedCell_rangeStep acc p q (fun hh => hnd2.1 (hh ▸ hq))]
    rw [ih (rangeStep acc p) hnd2.2, hcongr, rangeStep_gained]
    by_cases hc : clearedCell acc.1 p = true
    · simp only [hc, if_true]
      omega
    · simp only [hc, Bool.false_eq_true, if_false]
      omega

theorem fold_tiles_mem (ps : List (Int × Int)) (acc : PlayState × Int) (a b : Int)
    (hnd : ps.Nodup) (hmem : (a, b) ∈ ps)
    (hocc : occupied acc.1.enemies b a = false)
    (hb : 0 ≤ a ∧ a < (acc.1.level.height : Int) ∧ 0 ≤ b ∧ b < (acc.1.level.width : Int)) :
    ((ps.foldl rangeStep acc).1).level.tiles a b =
      (if (acc.1.level.tiles a b).type = .corrupted then ⟨'.', .pathway⟩
        else acc.1.level.tiles a b) := by
  induction ps generalizing acc with
  | nil => simp at hmem
  | cons p rest ih =>
    rw [List.foldl_cons]
    have hnd2 := List.nodup_cons.mp hnd
    rcases List.mem_cons.mp hmem with heq | hmemr
    · have hrest : (a, b) ∉ rest := by rw [heq]; exact hnd2.1
      rw [fold_tiles_not_mem rest (rangeStep acc p) a b hrest, ← heq]
      exact rangeStep_at_free acc a b hb hocc
    · have hne : (a, b) ≠ p := fun hh => hnd2.1 (hh ▸ hmemr)
      have ihx := ih (rangeStep acc p) hnd2.2 hmemr
        (by rw [rangeStep_occupied]; exact hocc)
        (by rw [rangeStep_width, rangeStep_height]; exact hb)
      rw [ihx, rangeStep_tiles_ne acc p a b hne]

theorem fold_tiles_mem_occupied (ps : List (Int × Int)) (acc : PlayState × Int) (a b : Int)
    (hnd : ps.Nodup) (hmem : (a, b) ∈ ps)
    (hocc : occupied acc.1.enemies b a = true) :
    ((ps.foldl rangeStep acc).1).level.tiles a b = acc.1.level.tiles a b := by
  induction ps generalizing acc with
  | nil => simp at hmem
  | cons p rest ih =>
    rw [List.foldl_cons]
    have hnd2 := List.nodup_cons.mp hnd
    rcases List.mem_cons.mp hmem with heq | hmemr
    · have hrest : (a, b) ∉ rest := by rw [heq]; exact hnd2.1
      rw [fold_tiles_not_mem rest (rangeStep acc p) a b hrest, ← heq]
      exact rangeStep_tiles_occupied acc a b hocc
    · have hne : (a, b) ≠ p := fun hh => hnd2.1 (hh ▸ hmemr)
      have ihx := ih (rangeStep acc p) hnd2.2 hmemr
        (by rw [rangeStep_occupied]; exact hocc)
      rw [ihx, rangeStep_tiles_ne acc p a b hne]

theorem fold_entry_not_mem (ps : List (Int × Int)) (acc : PlayState × Int) (i : Nat)
    (e2 : Enemy) (h : ∀ q ∈ ps, q ≠ (e2.y, e2.x)) (hi : acc.1.enemies[i]? = some e2) :
    ((ps.foldl rangeStep acc).1).enemies[i]? = some e2 := by
  induction ps generalizing acc with
  | nil => exact hi
  | cons p rest ih =>
    rw [List.foldl_cons]
    have hp : p ≠ (e2.y, e2.x) := h p (List.mem_cons_self p rest)
    have hne : enemyAt e2 p.2 p.1 = false := by
      unfold enemyAt
      simp only [decide_eq_false_iff_not]
      rintro ⟨h1, h2⟩
      exact hp (by rw [← Prod.mk.eta (p := p), h1, h2])
    exact ih (rangeStep acc p) (fun q hq => h q (List.mem_cons_of_mem p hq))
      (rangeStep_entry_notAt acc p i e2 hne hi)

theorem fold_enemy_entry (ps : List (Int × Int)) (acc : PlayState × Int)
    (a b : Int) (i : Nat) (e : Enemy)
    (hnd : ps.Nodup) (hmem : (a, b) ∈ ps)
    (hbnd : 0 ≤ a ∧ a < (acc.1.level.height : Int) ∧ 0 ≤ b ∧ b < (acc.1.level.width : Int))
    (hi : acc.1.enemies[i]? = some e)
    (hex : e.x = b) (hey : e.y = a)
    (huniq : acc.1.enemies.countP (fun e2 => enemyAt e2 b a) = 1) :
    ((ps.foldl rangeStep acc).1).enemies[i]? = some (takeDamage e 5) := by
  induction ps generalizing acc with
  | nil => simp at hmem
  | cons p rest ih =>
    rw [List.foldl_cons]
    have hnd2 := List.nodup_cons.mp hnd
    rcases List.mem_cons.mp hmem with heq | hmemr
    · have hrest : (a, b) ∉ rest := by rw [heq]; exact hnd2.1
      have hstep : (rangeStep acc p).1.enemies[i]? = some (takeDamage e 5) := by
        rw [← heq]
        unfold rangeStep
        dsimp only
        rw [if_neg (by omega)]
        simp [damageEnemiesAt_of_countP_one acc.1.enemies b a huniq,
          List.getElem?_map, hi, enemyAt, hex, hey]
      refine fold_entry_not_mem rest (rangeStep acc p) i (takeDamage e 5) ?_ hstep
      intro q hq
      have : (takeDamage e 5).y = a ∧ (takeDamage e 5).x = b := by
        simp [takeDamage, hex, hey]
      rw [this.1, this.2]
      exact fun hh => hrest (hh ▸ hq)
    · have hne : (a, b) ≠ p := fun hh => hnd2.1 (hh ▸ hmemr)
      have hnee : enemyAt e p.2 p.1 = false := by
        unfold enemyAt
        simp only [decide_eq_false_iff_not]
        rintro ⟨h1, h2⟩
        apply hne
        rw [← Prod.mk.eta (p := p), ← h1, ← h2, hex, hey]
      exact ih (rangeStep acc p) hnd2.2 hmemr
        (by rw [rangeStep_width, rangeStep_height]; exact hbnd)
        (rangeStep_entry_notAt acc p i e hnee hi)
        (by rw [rangeStep_countP]; exact huniq)

/-! ## Supporting lemmas: the normalized cell list -/

theorem mem_intRange {z a b : Int} : z ∈ intRange a b ↔ a ≤ z ∧ z ≤ b := by
  unfold intRange
  simp only [List.mem_map, List.mem_range]
  constructor
  · rintro ⟨i, hi, rfl⟩
    omega
  · rintro ⟨h1, h2⟩
    exact ⟨(z - a).toNat, by omega, by omega⟩

theorem intRange_nodup (a b : Int) : (intRange a b).Nodup := by
  unfold intRange
  refine List.Nodup.map ?_ (List.nodup_range _)
  intro i j hij
  have hc : (i : Int) = (j : Int) := by simpa using hij
  omega

theorem mem_gridPositions {p : Int × Int} {ys xs : List Int} :
    p ∈ gridPositions ys xs ↔ p.1 ∈ ys ∧ p.2 ∈ xs := by
  unfold gridPositions
  simp only [List.mem_flatMap, List.mem_map]
  constructor
  · rintro ⟨y, hy, x, hx, rfl⟩
    exact ⟨hy, hx⟩
  · rintro ⟨h1, h2⟩
    exact ⟨p.1, h1, p.2, h2, Prod.mk.eta⟩

theorem gridPositions_nodup (ys xs : List Int) (hy : ys.Nodup) (hx : xs.Nodup) :
    (gridPositions ys xs).Nodup := by
  induction ys with
  | nil => exact List.nodup_nil
  | cons y ys ih =>
    have hy2 := List.nodup_cons.mp hy
    unfold gridPositions
    rw [List.flatMap_cons]
    refine List.Nodup.append ?_ (ih hy2.2) ?_
    · refine List.Nodup.map ?_ hx
      intro u v huv
      injection huv
    · intro p hp1 hp2
      have h1 : p.1 = y := by
        rcases List.mem_map.mp hp1 with ⟨u, _, rfl⟩
        rfl
      have h2 : p.1 ∈ ys := (mem_gridPositions.mp hp2).1
      rw [h1] at h2
      exact hy2.1 h2

theorem rangeCells_nodup (r : RangeSpec) : (rangeCells r).Nodup :=
  gridPositions_nodup _ _ (intRange_nodup _ _) (intRange_nodup _ _)

theorem mem_rangeCells {r : RangeSpec} {a b : Int} :
    (a, b) ∈ rangeCells r ↔
      (min r.startY r.endY ≤ a ∧ a ≤ max r.startY r.endY) ∧
      (min r.startX r.endX ≤ b ∧ b ≤ max r.startX r.endX) := by
  unfold rangeCells
  rw [mem_gridPositions]
  rw [mem_intRange, mem_intRange]

/-! ## Claim theorems: range application -/

/-- Claim C2: inside an applied Delete range, a tile not occupied by an enemy
is turned from corrupted into pathway (glyph `'.'`) earning a fixed 5 score
per such tile, while a barrier tile is left completely unchanged; the score
increases by exactly 5 per cleared cell of the sweep. -/
theorem delete_range_corrupted_pathway_barrier_frozen (st : PlayState) (r : RangeSpec)
    (x y : Int)
    (hx : min r.startX r.endX ≤ x ∧ x ≤ max r.startX r.endX)
    (hy : min r.startY r.endY ≤ y ∧ y ≤ max r.startY r.endY)
    (hb : 0 ≤ y ∧ y < (st.level.height : Int) ∧ 0 ≤ x ∧ x < (st.level.width : Int))
    (hocc : occupied st.enemies x y = false) :
    ((st.level.tiles y x).type = .corrupted →
        (handleRangeAction st r).level.tiles y x = ⟨'.', .pathway⟩)
  ∧ ((st.level.tiles y x).type = .barrier →
        (handleRangeAction st r).level.tiles y x = st.level.tiles y x)
  ∧ (handleRangeAction st r).score =
      st.score + 5 * ((rangeCells r).countP (clearedCell st)) := by
  have hmem : (y, x) ∈ rangeCells r := mem_rangeCells.mpr ⟨hy, hx⟩
  have hmain := fold_tiles_mem (rangeCells r) (st, 0) y x (rangeCells_nodup r) hmem hocc hb
  have htiles : (handleRangeAction st r).level.tiles y x =
      ((rangeCells r).foldl rangeStep (st, 0)).1.level.tiles y x := rfl
  refine ⟨?_, ?_, ?_⟩
  · intro hc
    rw [htiles, hmain, if_pos hc]
  · intro hc
    rw [htiles, hmain, if_neg (by rw [hc]; intro h; cases h)]
  · have hsc : (handleRangeAction st r).score =
        ((rangeCells r).foldl rangeStep (st, 0)).1.score +
          ((rangeCells r).foldl rangeStep (st, 0)).2 := rfl
    rw [hsc, fold_score_field, fold_gained (rangeCells r) (st, 0) (rangeCells_nodup r)]
    dsimp only
    omega

/-- Claim C3: a cell of an applied range that an active enemy occupies damages
that enemy by a fixed 5 points and leaves the tile (glyph and kind) unmodified
for that pass. -/
theorem range_action_enemy_shadows_tile (st : PlayState) (r : RangeSpec)
    (x y : Int) (i : Nat) (e : Enemy)
    (hx : min r.startX r.endX ≤ x ∧ x ≤ max r.startX r.endX)
    (hy : min r.startY r.endY ≤ y ∧ y ≤ max r.startY r.endY)
    (hb : 0 ≤ y ∧ y < (st.level.height : Int) ∧ 0 ≤ x ∧ x < (st.level.width : Int))
    (hi : st.enemies[i]? = some e)
    (hex : e.x = x) (hey : e.y = y)
    (huniq : st.enemies.countP (fun e2 => enemyAt e2 x y) = 1) :
    (handleRangeAction st r).enemies[i]? = some (takeDamage e 5)
  ∧ (handleRangeAction st r).level.tiles y x = st.level.tiles y x := by
  have hmem : (y, x) ∈ rangeCells r := mem_rangeCells.mpr ⟨hy, hx⟩
  constructor
  · have h := fold_enemy_entry (rangeCells r) (st, 0) y x i e (rangeCells_nodup r)
      hmem hb hi hex hey huniq
    exact h
  · have hocc : occupied st.enemies x y = true := occupied_of_countP_one _ _ _ huniq
    exact fold_tiles_mem_occupied (rangeCells r) (st, 0) y x (rangeCells_nodup r) hmem hocc

/-- Claim C9: applying a range action with the two corner coordinates given in
opposite order produces identical effects on the grid, the enemies and the
score, because the applied range is normalized with min/max on both axes. -/
theorem range_action_order_independent (st : PlayState) (x1 y1 x2 y2 : Int) :
    handleRangeAction st ⟨x1, y1, x2, y2⟩ = handleRangeAction st ⟨x2, y2, x1, y1⟩ := by
  unfold handleRangeAction rangeCells
  rw [min_comm x2 x1, max_comm x2 x1, min_comm y2 y1, max_comm y2 y1]

/-! ## Witness fixtures: a small concrete level -/

/-- A 3-wide, 2-tall level with a corrupted tile at (0,0), a barrier at (1,0)
and pathway elsewhere. -/
def wLevel : Level :=
  ⟨3, 2, fun b a =>
    if b = 0 ∧ a = 0 then ⟨'#', .corrupted⟩
    else if b = 0 ∧ a = 1 then ⟨'|', .barrier⟩
    else ⟨'.', .pathway⟩⟩

/-- The witness Playing state with no enemies. -/
def wState : PlayState := ⟨wLevel, [], 100⟩

/-- The witness Playing state with one chaser at (2,1). -/
def wStateE : PlayState := ⟨wLevel, [⟨2, 1, 2, .chasing⟩], 100⟩

/-- The witness target range covering the whole level. -/
def wRange : RangeSpec := ⟨0, 0, 2, 1⟩

/-- Witness for the C2 theorem at the corrupted tile (0,0) and the barrier
tile (1,0) of the concrete level. -/
theorem delete_range_corrupted_pathway_barrier_frozen_witness :
    ((wState.level.tiles 0 0).type = .corrupted ∧
      (handleRangeAction wState wRange).level.tiles 0 0 = ⟨'.', .pathway⟩)
  ∧ ((wState.level.tiles 0 1).type = .barrier ∧
      (handleRangeAction wState wRange).level.tiles 0 1 = wState.level.tiles 0 1)
  ∧ (handleRangeAction wState wRange).score =
      wState.score + 5 * ((rangeCells wRange).countP (clearedCell wState)) :=
  ⟨⟨by decide,
    (delete_range_corrupted_pathway_barrier_frozen wState wRange 0 0
      (by decide) (by decide) (by decide) (by decide)).1 (by decide)⟩,
   ⟨by decide,
    (delete_range_corrupted_pathway_barrier_frozen wState wRange 1 0
      (by decide) (by decide) (by decide) (by decide)).2.1 (by decide)⟩,
   (delete_range_corrupted_pathway_barrier_frozen wState wRange 0 0
      (by decide) (by decide) (by decide) (by decide)).2.2⟩

/-- Witness for the C3 theorem: the chaser at (2,1) takes 5 damage and its
tile is untouched. -/
theorem range_action_enemy_shadows_tile_witness :
    wStateE.enemies[0]? = some ⟨2, 1, 2, .chasing⟩
  ∧ (handleRangeAction wStateE wRange).enemies[0]? =
      some (takeDamage ⟨2, 1, 2, .chasing⟩ 5)
  ∧ (handleRangeAction wStateE wRange).level.tiles 1 2 = wStateE.level.tiles 1 2 :=
  ⟨by decide,
   (range_action_enemy_shadows_tile wStateE wRange 2 1 0 ⟨2, 1, 2, .chasing⟩
      (by decide) (by decide) (by decide) (by decide) rfl rfl (by decide)).1,
   (range_action_enemy_shadows_tile wStateE wRange 2 1 0 ⟨2, 1, 2, .chasing⟩
      (by decide) (by decide) (by decide) (by decide) rfl rfl (by decide)).2⟩

/-! ## Claim theorems: state machine and enemies -/

/-- Claim C8: a transition request naming an unknown mode logs the anomaly
and falls back to MENU exactly once (the returned flag), so after any request
a known mode is active; requests naming one of the six registered modes never
trigger the fallback. -/
theorem switchTo_unknown_falls_back_to_menu (sm : SMState) (stateName : String) :
    ((switchTo sm stateName).1.currentStateName =
      some (if stateName ∈ knownStates then stateName else "MENU"))
  ∧ ((switchTo sm stateName).2 = true ↔ stateName ∉ knownStates)
  ∧ ∃ s, (switchTo sm stateName).1.currentStateName = some s ∧ s ∈ knownStates := by
  by_cases h : stateName ∈ knownStates
  · exact ⟨by simp [switchTo, h], by simp [switchTo, h],
      stateName, by simp [switchTo, h], h⟩
  · exact ⟨by simp [switchTo, h], by simp [switchTo, h],
      "MENU", by simp [switchTo, h], by decide⟩

/-- Claim C10: `takeDamage` floors health at 0, sets the state to defeated
exactly when the floored health is 0 (a not-yet-defeated enemy stays in its
state otherwise), and `isDefeated` afterwards holds exactly when health is 0. -/
theorem takeDamage_floor_and_defeated (e : Enemy) (amount : Int)
    (h : e.state ≠ .defeated) :
    0 ≤ (takeDamage e amount).health
  ∧ ((takeDamage e amount).state = .defeated ↔ (takeDamage e amount).health = 0)
  ∧ (isDefeated (takeDamage e amount) = true ↔ (takeDamage e amount).health = 0) := by
  unfold takeDamage isDefeated
  dsimp only
  by_cases h0 : max 0 (e.health - amount) = 0
  · simp [h0]
  · simp only [h0, if_false]
    refine ⟨le_max_left _ _, ⟨fun hs => absurd hs h, fun hh => hh.elim⟩, ?_⟩
    simp only [decide_eq_true_eq]
    constructor
    · intro hle
      omega
    · intro hh
      exact hh.elim

/-- Witness for the C10 theorem on a live chaser with 2 health taking 5
damage. -/
theorem takeDamage_floor_and_defeated_witness :
    (⟨0, 0, 2, .idle⟩ : Enemy).state ≠ .defeated
  ∧ (0 ≤ (takeDamage ⟨0, 0, 2, .idle⟩ 5).health
    ∧ ((takeDamage ⟨0, 0, 2, .idle⟩ 5).state = .defeated ↔
        (takeDamage ⟨0, 0, 2, .idle⟩ 5).health = 0)
    ∧ (isDefeated (takeDamage ⟨0, 0, 2, .idle⟩ 5) = true ↔
        (takeDamage ⟨0, 0, 2, .idle⟩ 5).health = 0)) :=
  ⟨by decide, takeDamage_floor_and_defeated ⟨0, 0, 2, .idle⟩ 5 (by decide)⟩

/-- Claim C1 (code-bug evidence): the pause transition runs
`PlayingState.exit()`, which discards the live enemy roster, so the
Playing-to-Paused-to-Playing round trip cannot return the roster untouched;
evaluated here on a Playing state holding one live chaser. -/
theorem pause_exit_discards_enemy_roster :
    (exitPlaying ⟨42, [⟨15, 2, 2, .chasing⟩]⟩).enemies = []
  ∧ (⟨42, [⟨15, 2, 2, .chasing⟩]⟩ : PlayingData).enemies ≠ [] := by
  decide

/-! ## Claim theorems: the motion resolver -/

/-- Claim C4: for count n at least 1 and a cursor row inside the grid, the
LINE motion resolves to the range spanning exactly rows y through
min (y+n-1) (height-1) and all columns 0 through width-1. -/
theorem line_motion_spans_rows_and_all_columns (g : Level) (px py : Int) (n : Nat)
    (hn : 1 ≤ n) (hy : 0 ≤ py ∧ py < (g.height : Int)) (hw : 0 < g.width) :
    ∃ c, handleDeleteOrChangeMotion g px py .LINE n =
        some (⟨0, py, (g.width : Int) - 1,
          min (py + (n : Int) - 1) ((g.height : Int) - 1)⟩, c)
      ∧ py ≤ min (py + (n : Int) - 1) ((g.height : Int) - 1)
      ∧ (0 : Int) ≤ (g.width : Int) - 1 := by
  refine ⟨10 * (n : Int) * (((g.width : Int) - 1) - 0 + 1), rfl, ?_, ?_⟩
  · have h1 : (1 : Int) ≤ (n : Int) := by exact_mod_cast hn
    omega
  · omega

/-- Witness for the C4 theorem: 2 lines from row 0 of the 3-by-2 level. -/
theorem line_motion_spans_rows_and_all_columns_witness :
    (1 ≤ 2 ∧ ((0 : Int) ≤ 0 ∧ (0 : Int) < (wLevel.height : Int)) ∧ 0 < wLevel.width)
  ∧ ∃ c, handleDeleteOrChangeMotion wLevel 1 0 .LINE 2 =
        some (⟨0, 0, (wLevel.width : Int) - 1,
          min (0 + (2 : Int) - 1) ((wLevel.height : Int) - 1)⟩, c)
      ∧ (0 : Int) ≤ min (0 + (2 : Int) - 1) ((wLevel.height : Int) - 1)
      ∧ (0 : Int) ≤ (wLevel.width : Int) - 1 :=
  ⟨⟨by decide, ⟨by decide, by decide⟩, by decide⟩,
   line_motion_spans_rows_and_all_columns wLevel 1 0 2 (by decide)
     ⟨by decide, by decide⟩ (by decide)⟩

/-- Claim C7: with the cursor on the first character of a word (a
non-whitespace tile whose left neighbour is whitespace, or column 0), the
WORD_BACKWARD motion resolves to null: no Action is produced, and feeding the
result through the Playing state changes nothing. -/
theorem word_backward_at_word_start_is_null (g : Level) (px py : Int) (count : Nat)
    (_hx0 : 0 ≤ px)
    (_hword : tileWs g px py = false)
    (hstart : px = 0 ∨ tileWs g (px - 1) py = true) :
    handleDeleteOrChangeMotion g px py .WORD_BACKWARD count = none
  ∧ ∀ st : PlayState,
      applyResolved st (handleDeleteOrChangeMotion g px py .WORD_BACKWARD count) = st := by
  have hfp : findPreviousWordStart g px py = some (px, py) := by
    unfold findPreviousWordStart
    rcases hstart with h0 | hws
    · rw [h0]
      rfl
    · cases htn : px.toNat with
      | zero => rfl
      | succ m =>
        unfold wordStartLeft
        rw [hws]
        rfl
  have hiter : ∀ m, iterPrevWordStart g py m (px, py) = (px, py) := by
    intro m
    induction m with
    | zero => rfl
    | succ k ih =>
      unfold iterPrevWordStart
      rw [hfp]
      exact ih
  have hnone : handleDeleteOrChangeMotion g px py .WORD_BACKWARD count = none := by
    unfold handleDeleteOrChangeMotion
    dsimp only
    rw [hiter count]
    rw [if_pos (by omega)]
  exact ⟨hnone, fun st => by rw [hnone]; rfl⟩

/-- Witness for the C7 theorem: cursor on the first character of the word at
columns 2-3 of a 5-wide row of spaces. -/
theorem word_backward_at_word_start_is_null_witness :
    ((0 : Int) ≤ 2
      ∧ tileWs ⟨5, 1, fun _ a => if a = 2 ∨ a = 3 then ⟨'A', .dataNode⟩
          else ⟨' ', .pathway⟩⟩ 2 0 = false
      ∧ tileWs ⟨5, 1, fun _ a => if a = 2 ∨ a = 3 then ⟨'A', .dataNode⟩
          else ⟨' ', .pathway⟩⟩ (2 - 1) 0 = true)
  ∧ handleDeleteOrChangeMotion ⟨5, 1, fun _ a => if a = 2 ∨ a = 3 then ⟨'A', .dataNode⟩
      else ⟨' ', .pathway⟩⟩ 2 0 .WORD_BACKWARD 1 = none :=
  ⟨⟨by decide, by decide, by decide⟩,
   (word_backward_at_word_start_is_null _ 2 0 1 (by decide) (by decide)
     (Or.inr (by decide))).1⟩

/-! ## Claim theorems: the keystroke parser -/

/-- A numeric-prefix string as the NORMAL-mode handler builds it: empty, or
all digits with a nonzero leading digit. -/
def wellFormedPfx (s : String) : Prop :=
  s = "" ∨ (s.data.all Char.isDigit = true ∧ s.data ≠ [] ∧ 1 ≤ digitVal (s.data.headD '0'))

instance : DecidablePred wellFormedPfx := by
  intro s
  unfold wellFormedPfx
  infer_instance

theorem digits_foldl_le (cs : List Char) :
    ∀ n : Nat, n ≤ cs.foldl (fun n c => 10 * n + digitVal c) n := by
  induction cs with
  | nil => intro n; simp
  | cons c cs ih =>
    intro n
    rw [List.foldl_cons]
    exact le_trans (by omega) (ih (10 * n + digitVal c))

theorem takeWhile_all_digits (l : List Char) (h : l.all Char.isDigit = true) :
    l.takeWhile Char.isDigit = l := by
  induction l with
  | nil => rfl
  | cons c cs ih =>
    rw [List.all_cons, Bool.and_eq_true] at h
    rw [List.takeWhile_cons, if_pos h.1, ih h.2]

theorem parsedCount_eq_max (s : String) (h : wellFormedPfx s) :
    parsedCount s = max 1 (digitsToNat s.data) := by
  rcases h with h0 | ⟨hall, hne, hhd⟩
  · rw [h0]
    decide
  · rcases List.exists_cons_of_ne_nil hne with ⟨c, cs, hdata⟩
    have hsne : s ≠ "" := by
      intro hc
      rw [hc] at hdata
      simp at hdata
    have hpos : 1 ≤ digitsToNat s.data := by
      rw [hdata]
      unfold digitsToNat
      rw [List.foldl_cons]
      refine le_trans ?_ (digits_foldl_le cs (10 * 0 + digitVal c))
      rw [hdata] at hhd
      simp only [List.headD_cons] at hhd
      omega
    unfold parsedCount jsParseInt
    rw [if_neg hsne, takeWhile_all_digits s.data hall, hdata]
    dsimp only
    rw [← hdata, Option.getD_some, max_eq_right hpos]

/-- Claim C5: in navigation mode an operator key with an empty buffer is
recorded as the pending operator without emitting; the same key again, while
the buffer holds exactly that operator, emits exactly one operator-motion
command with motion LINE, the matching operator and count
max 1 (value of the numeric run), clearing buffer and numeric run. -/
theorem operator_key_records_then_doubles (st : IHState) (k : String)
    (hk : k ∈ operatorKeys) (hwf : wellFormedPfx st.numericPfx) :
    (st.commandBuffer = "" →
      handleNormal st k = ⟨⟨k, st.numericPfx, st.hasPauseListener⟩, [], false⟩)
  ∧ (st.commandBuffer = k →
      handleNormal st k =
        ⟨⟨"", "", st.hasPauseListener⟩,
          [opLineCmd k (max 1 (digitsToNat st.numericPfx.data))], false⟩) := by
  have hcnt := parsedCount_eq_max st.numericPfx hwf
  rcases List.mem_cons.mp hk with rfl | hk2
  · constructor
    · intro hb
      simp [handleNormal, hb, digitKeys19, operatorKeys]
    · intro hb
      simp [handleNormal, hb, digitKeys19, operatorKeys, hcnt]
  · rcases List.mem_cons.mp hk2 with rfl | hk3
    · constructor
      · intro hb
        simp [handleNormal, hb, digitKeys19, operatorKeys]
      · intro hb
        simp [handleNormal, hb, digitKeys19, operatorKeys, hcnt]
    · rcases List.mem_cons.mp hk3 with rfl | hk4
      · constructor
        · intro hb
          simp [handleNormal, hb, digitKeys19, operatorKeys]
        · intro hb
          simp [handleNormal, hb, digitKeys19, operatorKeys, hcnt]
      · simp at hk4

/-- Witness for the C5 theorem: with numeric run "3", the first `d` is
recorded silently and the second emits exactly `DELETE LINE 3`. -/
theorem operator_key_records_then_doubles_witness :
    ("d" ∈ operatorKeys ∧ wellFormedPfx "3")
  ∧ handleNormal ⟨"", "3", false⟩ "d" = ⟨⟨"d", "3", false⟩, [], false⟩
  ∧ handleNormal ⟨"d", "3", false⟩ "d" =
      ⟨⟨"", "", false⟩, [opLineCmd "d" (max 1 (digitsToNat ("3" : String).data))], false⟩ :=
  ⟨⟨by decide, by decide⟩,
   (operator_key_records_then_doubles ⟨"", "3", false⟩ "d" (by decide) (by decide)).1 rfl,
   (operator_key_records_then_doubles ⟨"d", "3", false⟩ "d" (by decide) (by decide)).2 rfl⟩

/-- Counterexample to claim C6 as stated: in navigation mode, pressing the
operator key `c` while the buffer already holds the pending operator `d` does
not match, yet the handler emits nothing (in particular no CLEAR_BUFFER
notification) and leaves the pending operator in place instead of clearing it. -/
theorem mismatched_operator_key_keeps_buffer :
    handleNormal ⟨"d", "", false⟩ "c" = ⟨⟨"d", "", false⟩, [], false⟩
  ∧ Cmd.clearBuffer ∉ (handleNormal ⟨"d", "", false⟩ "c").emitted
  ∧ (handleNormal ⟨"d", "", false⟩ "c").state.commandBuffer ≠ "" := by
  decide

/-- The buffer values that keep the parser waiting (pending operator or
armed replace). -/
def pendingBufs : List String := ["d", "c", "y", "r"]

/-- Every key the NORMAL-mode handler can match against some buffer state. -/
def matchableKeys : List String :=
  ["Escape", "0", "1", "2", "3", "4", "5", "6", "7", "8", "9",
   "h", "j", "k", "l", "w", "b", "e", "$", "^",
   "d", "c", "y", "x", "r", "p", "P", "u"]

/-- Claim C6 (amended): in navigation mode a key that does not match the
active buffer state never raises and emits nothing at all — no command and no
CLEAR_BUFFER notification; when an operator or replace is pending the buffer
and numeric run are left in place (not cleared), and only with nothing
pending are `numericPrefix` and the buffer silently reset. With an operator
pending, non-matching means any key other than Escape, a motion key, or the
pending operator itself (digits, simple-command keys and foreign keys
included); with replace armed it means any non-single-character key other
than Escape (every in-vocabulary key except Escape is a single character,
so such keys lie outside `matchableKeys`). -/
theorem unmatched_key_silent_no_emission (st : IHState) (k : String)
    (h : (st.commandBuffer ∈ operatorKeys ∧ k ≠ "Escape" ∧ motionOf k = none ∧
            k ≠ st.commandBuffer)
       ∨ (k ∉ matchableKeys ∧ (st.commandBuffer = "r" → k.length ≠ 1))) :
    handleNormal st k =
      ⟨if st.commandBuffer ∈ pendingBufs then st
        else ⟨"", "", st.hasPauseListener⟩, [], false⟩ := by
  rcases h with ⟨hb, hesc, hm, hne⟩ | ⟨hk, hr⟩
  · simp only [operatorKeys, List.mem_cons, List.not_mem_nil, or_false] at hb
    have hmem : st.commandBuffer ∈ pendingBufs := by
      rcases hb with hb | hb | hb <;> simp [pendingBufs, hb]
    rw [if_pos hmem]
    rcases hb with hb | hb | hb
    · have hne2 : k ≠ "d" := by rw [hb] at hne; exact hne
      simp [handleNormal, hb, hesc, hm, hne2, Ne.symm hne2, digitKeys19, digitKeys09]
      rw [← hb]
    · have hne2 : k ≠ "c" := by rw [hb] at hne; exact hne
      simp [handleNormal, hb, hesc, hm, hne2, Ne.symm hne2, digitKeys19, digitKeys09]
      rw [← hb]
    · have hne2 : k ≠ "y" := by rw [hb] at hne; exact hne
      simp [handleNormal, hb, hesc, hm, hne2, Ne.symm hne2, digitKeys19, digitKeys09]
      rw [← hb]
  · simp only [matchableKeys, List.mem_cons, List.not_mem_nil, or_false, not_or] at hk
    obtain ⟨hk1, hk2, hk3, hk4, hk5, hk6, hk7, hk8, hk9, hk10, hk11, hk12, hk13, hk14,
      hk15, hk16, hk17, hk18, hk19, hk20, hk21, hk22, hk23, hk24, hk25, hk26, hk27,
      hk28⟩ := hk
    by_cases hbp : st.commandBuffer ∈ pendingBufs
    · rw [if_pos hbp]
      simp only [pendingBufs, List.mem_cons, List.not_mem_nil, or_false] at hbp
      rcases hbp with hb | hb | hb | hb
      · simp [handleNormal, hb, digitKeys19, digitKeys09, operatorKeys, motionOf,
          hk1, hk2, hk3, hk4, hk5, hk6, hk7, hk8, hk9, hk10, hk11, hk12, hk13, hk14,
          hk15, hk16, hk17, hk18, hk19, hk20, hk21, hk22, hk23, hk24, hk25, hk26,
          hk27, hk28]
        rw [← hb]
      · simp [handleNormal, hb, digitKeys19, digitKeys09, operatorKeys, motionOf,
          hk1, hk2, hk3, hk4, hk5, hk6, hk7, hk8, hk9, hk10, hk11, hk12, hk13, hk14,
          hk15, hk16, hk17, hk18, hk19, hk20, hk21, hk22, hk23, hk24, hk25, hk26,
          hk27, hk28]
        rw [← hb]
      · simp [handleNormal, hb, digitKeys19, digitKeys09, operatorKeys, motionOf,
          hk1, hk2, hk3, hk4, hk5, hk6, hk7, hk8, hk9, hk10, hk11, hk12, hk13, hk14,
          hk15, hk16, hk17, hk18, hk19, hk20, hk21, hk22, hk23, hk24, hk25, hk26,
          hk27, hk28]
        rw [← hb]
      · simp [handleNormal, hb, digitKeys19, digitKeys09, operatorKeys, motionOf,
          hr hb, hk1, hk2, hk3, hk4, hk5, hk6, hk7, hk8, hk9, hk10, hk11, hk12,
          hk13, hk14, hk15, hk16, hk17, hk18, hk19, hk20, hk21, hk22, hk23,
          hk24, hk25, hk26, hk27, hk28]
        rw [← hb]
    · rw [if_neg hbp]
      simp only [pendingBufs, List.mem_cons, List.not_mem_nil, or_false, not_or] at hbp
      obtain ⟨hb1, hb2, hb3, hb4⟩ := hbp
      simp [handleNormal, digitKeys19, digitKeys09, operatorKeys, motionOf,
        hb1, hb2, hb3, hb4, hk1, hk2, hk3, hk4, hk5, hk6, hk7, hk8, hk9, hk10, hk11,
        hk12, hk13, hk14, hk15, hk16, hk17, hk18, hk19, hk20, hk21, hk22, hk23, hk24,
        hk25, hk26, hk27, hk28]

/-- Witness for the amended C6 theorem: `c` while `d` is pending is a silent
no-op, and an unknown key with an empty buffer silently resets the numeric
run without emitting. -/
theorem unmatched_key_silent_no_emission_witness :
    (("d" : String) ∈ operatorKeys ∧ ("c" : String) ≠ "Escape" ∧ motionOf "c" = none ∧
      ("c" : String) ≠ "d")
  ∧ handleNormal ⟨"d", "7", false⟩ "c" = ⟨⟨"d", "7", false⟩, [], false⟩
  ∧ (motionOf "x" = none ∧ ("x" : String) ≠ "d")
  ∧ handleNormal ⟨"d", "7", false⟩ "x" = ⟨⟨"d", "7", false⟩, [], false⟩
  ∧ (motionOf "5" = none ∧ ("5" : String) ≠ "d")
  ∧ handleNormal ⟨"d", "7", false⟩ "5" = ⟨⟨"d", "7", false⟩, [], false⟩
  ∧ ("q" : String) ∉ matchableKeys
  ∧ handleNormal ⟨"", "7", false⟩ "q" = ⟨⟨"", "", false⟩, [], false⟩ :=
  ⟨⟨by decide, by decide, by decide, by decide⟩,
   by
    have h := unmatched_key_silent_no_emission ⟨"d", "7", false⟩ "c"
      (Or.inl ⟨by decide, by decide, by decide, by decide⟩)
    simpa using h,
   ⟨by decide, by decide⟩,
   by
    have h := unmatched_key_silent_no_emission ⟨"d", "7", false⟩ "x"
      (Or.inl ⟨by decide, by decide, by decide, by decide⟩)
    simpa using h,
   ⟨by decide, by decide⟩,
   by
    have h := unmatched_key_silent_no_emission ⟨"d", "7", false⟩ "5"
      (Or.inl ⟨by decide, by decide, by decide, by decide⟩)
    simpa using h,
   by decide,
   by
    have h := unmatched_key_silent_no_emission ⟨"", "7", false⟩ "q"
      (Or.inr ⟨by decide, by decide⟩)
    simpa using h⟩
